import Mathlib

/-!
Shallow embedding of the retention subsystem
(`crates/database/src/retention.rs`) of the convex document database,
together with theorems about its behaviour.

Timestamps are modelled as natural numbers (`Timestamp` in the source is a
monotonic `u64`-backed value with `Timestamp::MIN` as least element,
fallible `pred()` and fallible subtraction of a duration).  Fallible
operations return `Option`/`Except`.  Tunable knobs (`*_RETENTION_DELAY`,
`RETENTION_DELETE_BATCH`, ...) are passed as explicit parameters.
Collaborator primitives that live outside this file's source (document
index-key computation, sha256, key splitting, the persistence hash used by
`DefaultHasher`) are taken as function parameters.
-/

namespace Retention

/-- Timestamps: totally ordered, `Timestamp::MIN = 0`. -/
abbrev Timestamp := Nat

/-- `Timestamp::MIN`. -/
def tsMin : Timestamp := 0

/-- `Timestamp::sub(Duration)`: fails on underflow. -/
def tsSub (t : Timestamp) (d : Nat) : Option Timestamp :=
  if d ≤ t then some (t - d) else none

/-- `Timestamp::pred()`: fails at `Timestamp::MIN`. -/
def tsPred (t : Timestamp) : Option Timestamp :=
  if t = 0 then none else some (t - 1)

/-- `RetentionType` from retention.rs. -/
inductive RetentionType where
  | Document
  | Index
deriving DecidableEq, Repr

/-- `SnapshotBounds` from retention.rs. -/
structure SnapshotBounds where
  min_snapshot_ts : Timestamp
  min_document_snapshot_ts : Timestamp
deriving DecidableEq, Repr

/-- `SnapshotBounds::advance_min_snapshot_ts`. -/
def SnapshotBounds.advance_min_snapshot_ts (b : SnapshotBounds) (candidate : Timestamp) :
    SnapshotBounds :=
  { b with min_snapshot_ts := max b.min_snapshot_ts candidate }

/-- `SnapshotBounds::advance_min_document_snapshot_ts`. -/
def SnapshotBounds.advance_min_document_snapshot_ts (b : SnapshotBounds)
    (candidate : Timestamp) : SnapshotBounds :=
  { b with min_document_snapshot_ts := max b.min_document_snapshot_ts candidate }

/-- `Checkpoint` from retention.rs. -/
structure Checkpoint where
  checkpoint : Option Timestamp
deriving DecidableEq, Repr

/-- `Checkpoint::advance_checkpoint`; `unwrap_or_default()` on a `Timestamp`
yields `Timestamp::MIN`. -/
def Checkpoint.advance_checkpoint (c : Checkpoint) (candidate : Timestamp) : Checkpoint :=
  { checkpoint := some (max (c.checkpoint.getD tsMin) candidate) }

/-- `LeaderRetentionManager::candidate_min_snapshot_ts`: the candidate is
`latest_ts - delay` (fallible subtraction), and for the `Document` class it
is additionally clamped by the confirmed-deleted checkpoint (`Timestamp::MIN`
when the checkpoint is `None`). -/
def candidate_min_snapshot_ts (latestTs : Timestamp) (checkpoint : Option Timestamp)
    (indexDelay docDelay : Nat) : RetentionType → Option Timestamp
  | RetentionType.Index => tsSub latestTs indexDelay
  | RetentionType.Document =>
    match tsSub latestTs docDelay with
    | none => none
    | some c => some (min c (checkpoint.getD tsMin))

/-- The decision made by `LeaderRetentionManager::advance_timestamp`:
outer `none` = the candidate computation failed; `some none` = advancing is
skipped because `candidate <= current bound`; `some (some t)` = the bound is
persisted and advanced to `t`. -/
def advance_timestamp (latestTs : Timestamp) (checkpoint : Option Timestamp)
    (indexDelay docDelay : Nat) (rt : RetentionType) (currentBound : Timestamp) :
    Option (Option Timestamp) :=
  match candidate_min_snapshot_ts latestTs checkpoint indexDelay docDelay rt with
  | none => none
  | some candidate =>
    if candidate ≤ currentBound then some none else some (some candidate)

/-- Payload of `snapshot_invalid_error`: the offending timestamp, the current
boundary and the retention class. -/
structure SnapshotInvalidError where
  ts : Timestamp
  min_snapshot_ts : Timestamp
  retention_type : RetentionType
deriving DecidableEq, Repr

/-- `snapshot_invalid_error` from retention.rs. -/
def snapshot_invalid_error (ts min_snapshot_ts : Timestamp) (rt : RetentionType) :
    SnapshotInvalidError :=
  ⟨ts, min_snapshot_ts, rt⟩

/-- `LeaderRetentionManager::validate_snapshot`, reading the in-memory
bounds. -/
def validate_snapshot (bounds : SnapshotBounds) (ts : Timestamp) :
    Except SnapshotInvalidError Unit :=
  if ts < bounds.min_snapshot_ts then
    Except.error (snapshot_invalid_error ts bounds.min_snapshot_ts RetentionType.Index)
  else
    Except.ok ()

/-- `LeaderRetentionManager::validate_document_snapshot`. -/
def validate_document_snapshot (bounds : SnapshotBounds) (ts : Timestamp) :
    Except SnapshotInvalidError Unit :=
  if ts < bounds.min_document_snapshot_ts then
    Except.error
      (snapshot_invalid_error ts bounds.min_document_snapshot_ts RetentionType.Document)
  else
    Except.ok ()

/-- A persisted global cell as read by `latest_retention_min_snapshot_ts`:
either an `Int64` `ConvexValue` or some other (invalid) value. -/
inductive PersistedValue where
  | int (v : Int)
  | other
deriving DecidableEq, Repr

/-- Errors surfaced by the follower validator. -/
inductive RetentionError where
  | invalidPersistedValue
  | outOfRetention (e : SnapshotInvalidError)
deriving DecidableEq, Repr

/-- `latest_retention_min_snapshot_ts`: a missing cell means
`Timestamp::MIN`; a negative or non-`Int64` value is invalid
(`Timestamp::try_from` fails on negative input). -/
def latest_retention_min_snapshot_ts (cell : Option PersistedValue) :
    Except RetentionError Timestamp :=
  match cell with
  | some (PersistedValue.int v) =>
    if 0 ≤ v then Except.ok v.toNat else Except.error RetentionError.invalidPersistedValue
  | some PersistedValue.other => Except.error RetentionError.invalidPersistedValue
  | none => Except.ok tsMin

/-- `FollowerRetentionManager::validate_snapshot`: re-reads the persisted
index boundary via `min_snapshot_ts()` and compares. -/
def follower_validate_snapshot (cell : Option PersistedValue) (ts : Timestamp) :
    Except RetentionError Unit :=
  match latest_retention_min_snapshot_ts cell with
  | Except.error e => Except.error e
  | Except.ok m =>
    if ts < m then
      Except.error (RetentionError.outOfRetention
        (snapshot_invalid_error ts m RetentionType.Index))
    else
      Except.ok ()

/-- `LeaderRetentionManager::fail_if_falling_behind`.  `age` is
`now.secs_since_f64(checkpoint)` and `failureDie` the sampled uniform value;
both are modelled as rationals.  The multipliers are the knob values after
the source's `as u64` cast. -/
def fail_if_falling_behind (failEnabled : Bool) (checkpoint : Option Timestamp)
    (age failureDie : ℚ) (retentionDelaySecs startMultiplier allMultiplier : Nat) :
    Except String Unit :=
  if failEnabled = false then Except.ok ()
  else
    match checkpoint with
    | none => Except.ok ()
    | some _ =>
      let minFailureDuration : ℚ := (retentionDelaySecs * startMultiplier : Nat)
      let maxFailureDuration : ℚ := (retentionDelaySecs * allMultiplier : Nat)
      if age < minFailureDuration then Except.ok ()
      else
        let failurePercentage : ℚ := age / maxFailureDuration
        let isFailure : Bool :=
          if age < minFailureDuration then false
          else decide (failureDie < failurePercentage)
        if isFailure then Except.error "TooManyWritesInTimePeriod" else Except.ok ()

/-- Index ids (`IndexId` = `InternalId`). -/
abbrev IndexId := Nat

/-- Table ids. -/
abbrev TableId := Nat

/-- Indexed fields of a database index; the field identifiers are opaque. -/
abbrev IndexedFields := List Nat

/-- `GenericIndexName<TableId>`: carries the table it indexes plus a
descriptor. -/
structure GenericIndexName where
  table : TableId
  descriptor : Nat
deriving DecidableEq, Repr

/-- The value stored per index in the `all_indexes` map:
`(GenericIndexName<TableId>, IndexedFields)`. -/
abbrev IndexInfo := GenericIndexName × IndexedFields

/-- The `all_indexes` map, keyed by index id.  The source's `BTreeMap` is
modelled as an association list with unique keys. -/
abbrev AllIndexes := List (IndexId × IndexInfo)

/-- `DatabaseIndexState` on-disk states; only `Backfilling` matters to
retention. -/
inductive DatabaseIndexState where
  | Backfilling
  | Backfilled
  | Enabled
deriving DecidableEq, Repr

/-- `IndexConfig`: either a database index (with developer fields and an
on-disk state) or some other kind of index (search, vector, ...). -/
inductive IndexConfig where
  | Database (developerFields : IndexedFields) (onDiskState : DatabaseIndexState)
  | Other
deriving DecidableEq, Repr

/-- The result of parsing an index-metadata document
(`ParsedDocument<IndexMetadata<TableId>>::into_value`). -/
structure IndexMetadataDoc where
  name : GenericIndexName
  config : IndexConfig
deriving DecidableEq, Repr

/-- A `ResolvedDocument` as seen by `accumulate_index_document`: its table,
its internal id, and the result of `try_into::<ParsedDocument<...>>` (`none`
when parsing fails). -/
structure ResolvedDocument where
  tableId : TableId
  internalId : Nat
  parsed : Option IndexMetadataDoc
deriving DecidableEq, Repr

/-- `BTreeMap::insert` on the association-list model: overwrites the value
when the key is present, appends otherwise. -/
def insertIndex (k : IndexId) (v : IndexInfo) : AllIndexes → AllIndexes
  | [] => [(k, v)]
  | (k', v') :: rest =>
    if k = k' then (k, v) :: rest else (k', v') :: insertIndex k v rest

/-- `LeaderRetentionManager::accumulate_index_document`.  Returns the updated
map, or an error when the document fails to parse as index metadata. -/
def accumulate_index_document (maybeDoc : Option ResolvedDocument)
    (allIndexes : AllIndexes) (indexTableId : TableId) : Except String AllIndexes :=
  match maybeDoc with
  | none => Except.ok allIndexes
  | some doc =>
    if doc.tableId ≠ indexTableId then Except.ok allIndexes
    else
      match doc.parsed with
      | none => Except.error "could not parse index metadata"
      | some meta =>
        match meta.config with
        | IndexConfig.Other => Except.ok allIndexes
        | IndexConfig.Database developerFields onDiskState =>
          match onDiskState with
          | DatabaseIndexState.Backfilling => Except.ok allIndexes
          | _ => Except.ok (insertIndex doc.internalId (meta.name, developerFields) allIndexes)

/-- `InternalDocumentId`: table plus internal id. -/
structure DocId where
  table : TableId
  internalId : Nat
deriving DecidableEq, Repr

/-- Index-key bytes (`IndexKey::into_bytes`). -/
abbrev Key := List Nat

/-- `IndexEntry` from `common::index`. -/
structure IndexEntry where
  index_id : IndexId
  key_prefix : List Nat
  key_suffix : List Nat
  key_sha256 : List Nat
  ts : Timestamp
  deleted : Bool
deriving DecidableEq, Repr

/-- One document revision `(ts, id, maybe_doc)` from the load-documents
stream; `doc = none` is a tombstone. -/
structure Revision (Doc : Type) where
  ts : Timestamp
  id : DocId
  doc : Option Doc
deriving DecidableEq, Repr

/-- Whether the tombstone at `ts` is emitted: always when the document was
deleted, and when its new index key differs from the previous one
(`if index_key == next_index_key { continue }` skips it). -/
def tombstoneNeeded {Doc : Type} (indexKey : Doc → IndexedFields → Key)
    (prevKeyBytes : Key) (flds : IndexedFields) : Option Doc → Bool
  | some doc => decide (¬ indexKey doc flds = prevKeyBytes)
  | none => true

/-- The body of the `for (index_id, (_, index_fields)) in all_indexes`
loop of `expired_index_entries`: the one or two entries emitted for one
revision and one matching index.  `indexKey`, `sha`, `splitPre` and
`splitSuf` model the collaborator primitives `Document::index_key`,
`Sha256::hash` and `SplitKey::new`.  The first entry reclaims the
previous-revision row at `prevRevTs`. -/
def entriesForIndex {Doc : Type} (indexKey : Doc → IndexedFields → Key)
    (sha : Key → List Nat) (splitPre splitSuf : Key → List Nat)
    (prevRevTs ts : Timestamp) (prevRevDoc : Doc) (maybeDoc : Option Doc)
    (ix : IndexId × IndexInfo) : List IndexEntry :=
  if tombstoneNeeded indexKey (indexKey prevRevDoc ix.2.2) ix.2.2 maybeDoc then
    [⟨ix.1, splitPre (indexKey prevRevDoc ix.2.2), splitSuf (indexKey prevRevDoc ix.2.2),
        sha (indexKey prevRevDoc ix.2.2), prevRevTs, false⟩,
     ⟨ix.1, splitPre (indexKey prevRevDoc ix.2.2), splitSuf (indexKey prevRevDoc ix.2.2),
        sha (indexKey prevRevDoc ix.2.2), ts, true⟩]
  else
    [⟨ix.1, splitPre (indexKey prevRevDoc ix.2.2), splitSuf (indexKey prevRevDoc ix.2.2),
        sha (indexKey prevRevDoc ix.2.2), prevRevTs, false⟩]

/-- The body of the `for (ts, id, maybe_doc) in chunk` loop of
`expired_index_entries`: the index entries emitted for one revision, paired
with the number of structured error reports.  `prevRev` is the
previous-revisions lookup for this `(id, ts)`: no prior revision emits
nothing; a prior revision that is a tombstone is reported and skipped. -/
def expiredEntriesForRevision {Doc : Type} (indexKey : Doc → IndexedFields → Key)
    (sha : Key → List Nat) (splitPre splitSuf : Key → List Nat)
    (allIndexes : AllIndexes) (prevRev : Option (Timestamp × Option Doc))
    (ts : Timestamp) (id : DocId) (maybeDoc : Option Doc) :
    List IndexEntry × Nat :=
  match prevRev with
  | none => ([], 0)
  | some (_, none) => ([], 1)
  | some (prevRevTs, some prevRevDoc) =>
    (((allIndexes.filter (fun e => decide (e.2.1.table = id.table))).map
        (entriesForIndex indexKey sha splitPre splitSuf prevRevTs ts prevRevDoc
          maybeDoc)).flatten, 0)

/-- `LeaderRetentionManager::expired_index_entries`, flattened over the
revision stream: the emitted index entries in order, paired with the total
number of structured error reports.  `prevRevs` models
`RepeatablePersistence::previous_revisions`. -/
def expired_index_entries {Doc : Type} (indexKey : Doc → IndexedFields → Key)
    (sha : Key → List Nat) (splitPre splitSuf : Key → List Nat)
    (allIndexes : AllIndexes)
    (prevRevs : DocId → Timestamp → Option (Timestamp × Option Doc))
    (revisions : List (Revision Doc)) : List IndexEntry × Nat :=
  let results := revisions.map (fun r =>
    expiredEntriesForRevision indexKey sha splitPre splitSuf allIndexes
      (prevRevs r.id r.ts) r.ts r.id r.doc)
  ((results.map Prod.fst).flatten, (results.map Prod.snd).sum)

/-- Push an entry onto the shard at the given position (`parts[i].push(entry)`
in `partition_chunk`). -/
def pushAt : List (List IndexEntry) → Nat → IndexEntry → List (List IndexEntry)
  | [], _, _ => []
  | s :: rest, 0, e => (s ++ [e]) :: rest
  | s :: rest, Nat.succ i, e => s :: pushAt rest i e

/-- `LeaderRetentionManager::partition_chunk`: `par` copies of the empty
shard, each entry pushed onto the shard selected by hashing its
`key_sha256` modulo `par`.  `hashKey` models `DefaultHasher`. -/
def partition_chunk (hashKey : List Nat → Nat) (par : Nat)
    (toPartition : List IndexEntry) : List (List IndexEntry) :=
  toPartition.foldl (fun parts entry => pushAt parts (hashKey entry.key_sha256 % par) entry)
    (List.replicate par [])

/-- `LeaderRetentionManager::delete_chunk`: ask persistence which candidate
entries exist (`entriesToDelete` models `index_entries_to_delete`), advance
the local cursor to `max(cursor, ts.pred())` over the entries found with
`ts > Timestamp::MIN`, and return the new cursor with the number of deleted
rows. -/
def delete_chunk (entriesToDelete : List IndexEntry → List IndexEntry)
    (deleteChunk : List IndexEntry) (newCursor : Timestamp) : Timestamp × Nat :=
  let toDelete := entriesToDelete deleteChunk
  let nc := toDelete.foldl
    (fun c e => if 0 < e.ts then max c (e.ts - 1) else c) newCursor
  (nc, toDelete.length)

/-- One iteration of the `while let Some(delete_chunk)` loop of `delete`,
restricted to the cursor computation: partition the group into shards,
delete each shard from the current cursor, and take the maximum of the
returned shard cursors (keeping the current cursor when there are no
shards). -/
def stepGroup (hashKey : List Nat → Nat) (par : Nat)
    (entriesToDelete : List IndexEntry → List IndexEntry)
    (newCursor : Timestamp) (group : List IndexEntry) : Timestamp :=
  match (((partition_chunk hashKey par group).map
      (fun shard => delete_chunk entriesToDelete shard newCursor)).map Prod.fst).max? with
  | some m => m
  | none => newCursor

/-- The main loop of `LeaderRetentionManager::delete` over the groups
produced by chunking the expired stream with `RETENTION_DELETE_CHUNK`:
accumulate the group's length into the expired-entry total, advance the
cursor via the sharded deletion, return `(new_cursor, total)` early when
`new_cursor > cursor && total > batch`, and `(min_snapshot_ts.pred(), total)`
when the stream drains (`pred` fails at `Timestamp::MIN`). -/
def deleteAux (hashKey : List Nat → Nat) (par : Nat)
    (entriesToDelete : List IndexEntry → List IndexEntry)
    (cursor minSnapshotTs : Timestamp) (batch : Nat) :
    Timestamp → Nat → List (List IndexEntry) → Option (Timestamp × Nat)
  | _, total, [] => (tsPred minSnapshotTs).map (fun t => (t, total))
  | nc, total, g :: gs =>
    if cursor < stepGroup hashKey par entriesToDelete nc g ∧ batch < total + g.length then
      some (stepGroup hashKey par entriesToDelete nc g, total + g.length)
    else
      deleteAux hashKey par entriesToDelete cursor minSnapshotTs batch
        (stepGroup hashKey par entriesToDelete nc g) (total + g.length) gs

/-- `LeaderRetentionManager::delete`: short-circuits to `(cursor, 0)` when
deletes are disabled or the boundary is `Timestamp::MIN`, otherwise runs the
group loop starting from `(cursor, 0)`. -/
def delete (deletesEnabled : Bool) (hashKey : List Nat → Nat) (par : Nat)
    (entriesToDelete : List IndexEntry → List IndexEntry)
    (minSnapshotTs cursor : Timestamp) (batch : Nat)
    (groups : List (List IndexEntry)) : Option (Timestamp × Nat) :=
  if deletesEnabled = false ∨ minSnapshotTs = tsMin then some (cursor, 0)
  else deleteAux hashKey par entriesToDelete cursor minSnapshotTs batch cursor 0 groups

/-! ## Helper lemmas -/

theorem foldl_advance_min_snapshot_le (cs : List Timestamp) (b : SnapshotBounds) :
    b.min_snapshot_ts
      ≤ (cs.foldl (fun b c => b.advance_min_snapshot_ts c) b).min_snapshot_ts := by
  induction cs generalizing b with
  | nil => exact le_refl _
  | cons c cs ih =>
    refine le_trans ?_ (ih (b.advance_min_snapshot_ts c))
    exact le_max_left _ _

theorem foldl_advance_min_document_snapshot_le (cs : List Timestamp) (b : SnapshotBounds) :
    b.min_document_snapshot_ts
      ≤ (cs.foldl (fun b c => b.advance_min_document_snapshot_ts c) b).min_document_snapshot_ts := by
  induction cs generalizing b with
  | nil => exact le_refl _
  | cons c cs ih =>
    refine le_trans ?_ (ih (b.advance_min_document_snapshot_ts c))
    exact le_max_left _ _

theorem foldl_advance_checkpoint_le (cs : List Timestamp) (c : Checkpoint) :
    c.checkpoint.getD tsMin
      ≤ ((cs.foldl (fun c t => c.advance_checkpoint t) c).checkpoint.getD tsMin) := by
  induction cs generalizing c with
  | nil => exact le_refl _
  | cons t cs ih =>
    refine le_trans ?_ (ih (c.advance_checkpoint t))
    simp [Checkpoint.advance_checkpoint]

/-! ## Claim theorems -/

/-- Claim C8: `advance_min_snapshot_ts`, `advance_min_document_snapshot_ts`
and `advance_checkpoint` all set the stored value to the maximum of the old
value and the candidate, so the two snapshot bounds and the
confirmed-deleted checkpoint are monotonically non-decreasing across any
sequence of advances. -/
theorem bounds_checkpoint_monotone :
    (∀ (b : SnapshotBounds) (c : Timestamp),
       (b.advance_min_snapshot_ts c).min_snapshot_ts = max b.min_snapshot_ts c ∧
       (b.advance_min_snapshot_ts c).min_document_snapshot_ts = b.min_document_snapshot_ts) ∧
    (∀ (b : SnapshotBounds) (c : Timestamp),
       (b.advance_min_document_snapshot_ts c).min_document_snapshot_ts
         = max b.min_document_snapshot_ts c ∧
       (b.advance_min_document_snapshot_ts c).min_snapshot_ts = b.min_snapshot_ts) ∧
    (∀ (cp : Checkpoint) (c : Timestamp),
       (cp.advance_checkpoint c).checkpoint = some (max (cp.checkpoint.getD tsMin) c)) ∧
    (∀ (b : SnapshotBounds) (cs : List Timestamp),
       b.min_snapshot_ts
         ≤ (cs.foldl (fun b c => b.advance_min_snapshot_ts c) b).min_snapshot_ts) ∧
    (∀ (b : SnapshotBounds) (cs : List Timestamp),
       b.min_document_snapshot_ts
         ≤ (cs.foldl (fun b c => b.advance_min_document_snapshot_ts c) b).min_document_snapshot_ts) ∧
    (∀ (cp : Checkpoint) (cs : List Timestamp),
       cp.checkpoint.getD tsMin
         ≤ ((cs.foldl (fun c t => c.advance_checkpoint t) cp).checkpoint.getD tsMin)) := by
  refine ⟨fun b c => ⟨rfl, rfl⟩, fun b c => ⟨rfl, rfl⟩, fun cp c => rfl, ?_, ?_, ?_⟩
  · exact fun b cs => foldl_advance_min_snapshot_le cs b
  · exact fun b cs => foldl_advance_min_document_snapshot_le cs b
  · exact fun cp cs => foldl_advance_checkpoint_le cs cp

/-- Claim C2: the leader's `validate_snapshot(ts)` succeeds iff
`ts >= min_snapshot_ts` and otherwise fails with the canonical
out-of-retention error carrying the offending timestamp and the current
boundary; the follower's `validate_snapshot` satisfies the same contract
against the persisted boundary. -/
theorem validate_snapshot_ok_iff (bounds : SnapshotBounds) (ts : Timestamp)
    (cell : Option PersistedValue) (m : Timestamp)
    (hm : latest_retention_min_snapshot_ts cell = Except.ok m) :
    (validate_snapshot bounds ts = Except.ok () ↔ bounds.min_snapshot_ts ≤ ts) ∧
    (ts < bounds.min_snapshot_ts →
      validate_snapshot bounds ts
        = Except.error
            (snapshot_invalid_error ts bounds.min_snapshot_ts RetentionType.Index)) ∧
    (follower_validate_snapshot cell ts = Except.ok () ↔ m ≤ ts) ∧
    (ts < m →
      follower_validate_snapshot cell ts
        = Except.error (RetentionError.outOfRetention
            (snapshot_invalid_error ts m RetentionType.Index))) := by
  refine ⟨?_, ?_, ?_, ?_⟩
  · constructor
    · intro hok
      by_contra hlt
      push_neg at hlt
      unfold validate_snapshot at hok
      simp [hlt] at hok
    · intro hle
      have hnlt : ¬ ts < bounds.min_snapshot_ts := not_lt.mpr hle
      unfold validate_snapshot
      simp [hnlt]
  · intro h
    unfold validate_snapshot
    simp [h]
  · constructor
    · intro hok
      by_contra hlt
      push_neg at hlt
      unfold follower_validate_snapshot at hok
      rw [hm] at hok
      simp [hlt] at hok
    · intro hle
      have hnlt : ¬ ts < m := not_lt.mpr hle
      unfold follower_validate_snapshot
      rw [hm]
      simp [hnlt]
  · intro h
    unfold follower_validate_snapshot
    rw [hm]
    simp [h]

/-- Witness for C2 at concrete inputs. -/
theorem validate_snapshot_ok_iff_witness :
    (validate_snapshot ⟨5, 3⟩ 7 = Except.ok () ↔ (5 : Timestamp) ≤ 7) ∧
    ((7 : Timestamp) < 5 →
      validate_snapshot ⟨5, 3⟩ 7
        = Except.error (snapshot_invalid_error 7 5 RetentionType.Index)) ∧
    (follower_validate_snapshot (some (PersistedValue.int 4)) 7 = Except.ok ()
      ↔ (4 : Timestamp) ≤ 7) ∧
    ((7 : Timestamp) < 4 →
      follower_validate_snapshot (some (PersistedValue.int 4)) 7
        = Except.error (RetentionError.outOfRetention
            (snapshot_invalid_error 7 4 RetentionType.Index))) :=
  validate_snapshot_ok_iff ⟨5, 3⟩ 7 (some (PersistedValue.int 4)) 4 rfl

/-- Claim C3: for the `Document` retention class,
`candidate_min_snapshot_ts` returns
`min(latest_ts - DOCUMENT_RETENTION_DELAY, checkpoint)` where a `None`
checkpoint is treated as `Timestamp::MIN`; in particular while no checkpoint
has ever been written the document candidate is `Timestamp::MIN` and
`advance_timestamp` never advances the document boundary. -/
theorem candidate_document_boundary_min (latestTs : Timestamp)
    (checkpoint : Option Timestamp) (indexDelay docDelay : Nat)
    (h : docDelay ≤ latestTs) :
    candidate_min_snapshot_ts latestTs checkpoint indexDelay docDelay RetentionType.Document
      = some (min (latestTs - docDelay) (checkpoint.getD tsMin)) ∧
    (checkpoint = none →
      candidate_min_snapshot_ts latestTs checkpoint indexDelay docDelay RetentionType.Document
        = some tsMin) ∧
    (checkpoint = none → ∀ currentBound : Timestamp,
      advance_timestamp latestTs checkpoint indexDelay docDelay RetentionType.Document
          currentBound = some none) := by
  have hc : candidate_min_snapshot_ts latestTs checkpoint indexDelay docDelay
      RetentionType.Document
      = some (min (latestTs - docDelay) (checkpoint.getD tsMin)) := by
    unfold candidate_min_snapshot_ts tsSub
    simp [h]
  refine ⟨hc, ?_, ?_⟩
  · intro hnone
    rw [hc, hnone]
    simp [tsMin]
  · intro hnone currentBound
    unfold advance_timestamp
    rw [hc, hnone]
    simp [tsMin]

/-- Witness for C3 at concrete inputs. -/
theorem candidate_document_boundary_min_witness :
    (candidate_min_snapshot_ts 10 none 5 3 RetentionType.Document
      = some (min (10 - 3) ((none : Option Timestamp).getD tsMin))) ∧
    ((none : Option Timestamp) = none →
      candidate_min_snapshot_ts 10 none 5 3 RetentionType.Document = some tsMin) ∧
    ((none : Option Timestamp) = none → ∀ currentBound : Timestamp,
      advance_timestamp 10 none 5 3 RetentionType.Document currentBound = some none) :=
  candidate_document_boundary_min 10 none 5 3 (by decide)

/-- Claim C5: `fail_if_falling_behind` succeeds when shedding is disabled or
no checkpoint exists; with shedding enabled and a checkpoint, it succeeds
whenever `age < INDEX_RETENTION_DELAY * RETENTION_FAIL_START_MULTIPLIER`,
otherwise it fails with the `TooManyWritesInTimePeriod` overload error iff
the sampled uniform value is below
`age / (INDEX_RETENTION_DELAY * RETENTION_FAIL_ALL_MULTIPLIER)`; once `age`
reaches the max-failure threshold every call fails. -/
theorem fail_if_falling_behind_spec (failEnabled : Bool) (checkpoint : Option Timestamp)
    (age failureDie : ℚ) (delaySecs startMult allMult : Nat) :
    (failEnabled = false →
      fail_if_falling_behind failEnabled checkpoint age failureDie delaySecs startMult allMult
        = Except.ok ()) ∧
    (checkpoint = none →
      fail_if_falling_behind failEnabled checkpoint age failureDie delaySecs startMult allMult
        = Except.ok ()) ∧
    (failEnabled = true → ∀ cp, checkpoint = some cp →
      ((age < (delaySecs : ℚ) * (startMult : ℚ) →
        fail_if_falling_behind failEnabled checkpoint age failureDie delaySecs startMult allMult
          = Except.ok ()) ∧
       ((delaySecs : ℚ) * (startMult : ℚ) ≤ age →
        (fail_if_falling_behind failEnabled checkpoint age failureDie delaySecs startMult allMult
            = Except.error "TooManyWritesInTimePeriod"
          ↔ failureDie < age / ((delaySecs : ℚ) * (allMult : ℚ)))) ∧
       (failureDie < 1 → 0 < (delaySecs : ℚ) * (allMult : ℚ) →
        (delaySecs : ℚ) * (startMult : ℚ) ≤ (delaySecs : ℚ) * (allMult : ℚ) →
        (delaySecs : ℚ) * (allMult : ℚ) ≤ age →
        fail_if_falling_behind failEnabled checkpoint age failureDie delaySecs startMult allMult
          = Except.error "TooManyWritesInTimePeriod"))) := by
  refine ⟨?_, ?_, ?_⟩
  · intro h
    subst h
    simp [fail_if_falling_behind]
  · intro h
    subst h
    cases failEnabled <;> simp [fail_if_falling_behind]
  · intro hE cp hcp
    subst hE
    subst hcp
    have hred : fail_if_falling_behind true (some cp) age failureDie delaySecs startMult allMult
        = (if age < (delaySecs : ℚ) * (startMult : ℚ) then Except.ok ()
           else if failureDie < age / ((delaySecs : ℚ) * (allMult : ℚ)) then
             Except.error "TooManyWritesInTimePeriod"
           else Except.ok ()) := by
      by_cases h1 : age < (delaySecs : ℚ) * (startMult : ℚ)
      · have h1' : age < ((delaySecs * startMult : Nat) : ℚ) := by push_cast; exact h1
        simp [fail_if_falling_behind, h1', h1]
      · have h1' : ¬ age < ((delaySecs * startMult : Nat) : ℚ) := by push_cast; exact h1
        by_cases h2 : failureDie < age / ((delaySecs : ℚ) * (allMult : ℚ))
        · have h2' : failureDie < age / ((delaySecs * allMult : Nat) : ℚ) := by
            push_cast
            exact h2
          simp [fail_if_falling_behind, h1', h1, h2', h2]
        · have h2' : ¬ failureDie < age / ((delaySecs * allMult : Nat) : ℚ) := by
            push_cast
            exact h2
          simp [fail_if_falling_behind, h1', h1, h2', h2]
    refine ⟨?_, ?_, ?_⟩
    · intro hlt
      rw [hred]
      simp [hlt]
    · intro hge
      have hnlt : ¬ age < (delaySecs : ℚ) * (startMult : ℚ) := not_lt.mpr hge
      rw [hred]
      simp only [hnlt, if_false]
      constructor
      · intro herr
        by_contra hdie
        simp [hdie] at herr
      · intro hdie
        simp [hdie]
    · intro hdie hmaxpos hsm hge
      have hnlt : ¬ age < (delaySecs : ℚ) * (startMult : ℚ) :=
        not_lt.mpr (le_trans hsm hge)
      rw [hred]
      have hone : (1 : ℚ) ≤ age / ((delaySecs : ℚ) * (allMult : ℚ)) :=
        (one_le_div hmaxpos).mpr hge
      have hfail : failureDie < age / ((delaySecs : ℚ) * (allMult : ℚ)) :=
        lt_of_lt_of_le hdie hone
      simp [hnlt, hfail]

/-- Witness for C5 at concrete inputs: shedding enabled, checkpoint at 0,
`delaySecs = 2`, multipliers 1 and 3, `age = 7`, `failureDie = 1/2`. -/
theorem fail_if_falling_behind_spec_witness :
    fail_if_falling_behind true (some 0) 7 (1/2 : ℚ) 2 1 3
      = Except.error "TooManyWritesInTimePeriod" :=
  ((fail_if_falling_behind_spec true (some 0) 7 (1/2 : ℚ) 2 1 3).2.2 rfl 0 rfl).2.2
    (by norm_num) (by norm_num) (by norm_num) (by norm_num)

/-- Keys are preserved by `insertIndex`. -/
theorem mem_keys_insertIndex (k' : IndexId) (v : IndexInfo) (l : AllIndexes) (k : IndexId)
    (hk : k ∈ l.map Prod.fst) : k ∈ (insertIndex k' v l).map Prod.fst := by
  induction l with
  | nil => simp at hk
  | cons hd tl ih =>
    obtain ⟨a, b⟩ := hd
    by_cases hka : k' = a
    · subst hka
      have heq : insertIndex k' v ((k', b) :: tl) = (k', v) :: tl := by
        simp [insertIndex]
      rw [heq, List.map_cons]
      rw [List.map_cons] at hk
      simpa using hk
    · have heq : insertIndex k' v ((a, b) :: tl) = (a, b) :: insertIndex k' v tl := by
        simp [insertIndex, hka]
      rw [heq, List.map_cons]
      rw [List.map_cons] at hk
      rcases List.mem_cons.mp hk with h | h
      · exact List.mem_cons.mpr (Or.inl h)
      · exact List.mem_cons.mpr (Or.inr (ih h))

/-- Claim C6: `accumulate_index_document` never removes a key from the map,
and it inserts (or overwrites) a key exactly when the document lives in the
index metadata table, parses as index metadata with a database config, and
its on-disk state is not `Backfilling`; all skip cases leave the map
unchanged. -/
theorem accumulate_index_document_spec (maybeDoc : Option ResolvedDocument)
    (allIndexes : AllIndexes) (indexTableId : TableId) :
    (∀ m, accumulate_index_document maybeDoc allIndexes indexTableId = Except.ok m →
       ∀ k, k ∈ allIndexes.map Prod.fst → k ∈ m.map Prod.fst) ∧
    (maybeDoc = none →
       accumulate_index_document maybeDoc allIndexes indexTableId = Except.ok allIndexes) ∧
    (∀ doc, maybeDoc = some doc → doc.tableId ≠ indexTableId →
       accumulate_index_document maybeDoc allIndexes indexTableId = Except.ok allIndexes) ∧
    (∀ doc, maybeDoc = some doc → doc.tableId = indexTableId → doc.parsed = none →
       accumulate_index_document maybeDoc allIndexes indexTableId
         = Except.error "could not parse index metadata") ∧
    (∀ doc meta, maybeDoc = some doc → doc.tableId = indexTableId →
       doc.parsed = some meta → meta.config = IndexConfig.Other →
       accumulate_index_document maybeDoc allIndexes indexTableId = Except.ok allIndexes) ∧
    (∀ doc meta flds, maybeDoc = some doc → doc.tableId = indexTableId →
       doc.parsed = some meta →
       meta.config = IndexConfig.Database flds DatabaseIndexState.Backfilling →
       accumulate_index_document maybeDoc allIndexes indexTableId = Except.ok allIndexes) ∧
    (∀ doc meta flds st, maybeDoc = some doc → doc.tableId = indexTableId →
       doc.parsed = some meta → meta.config = IndexConfig.Database flds st →
       st ≠ DatabaseIndexState.Backfilling →
       accumulate_index_document maybeDoc allIndexes indexTableId
         = Except.ok (insertIndex doc.internalId (meta.name, flds) allIndexes)) := by
  refine ⟨?_, ?_, ?_, ?_, ?_, ?_, ?_⟩
  · intro m hm k hk
    cases maybeDoc with
    | none =>
      simp [accumulate_index_document] at hm
      subst hm
      exact hk
    | some doc =>
      by_cases ht : doc.tableId = indexTableId
      · cases hp : doc.parsed with
        | none => simp [accumulate_index_document, ht, hp] at hm
        | some meta =>
          cases hc : meta.config with
          | Other =>
            simp [accumulate_index_document, ht, hp, hc] at hm
            subst hm
            exact hk
          | Database flds st =>
            cases st with
            | Backfilling =>
              simp [accumulate_index_document, ht, hp, hc] at hm
              subst hm
              exact hk
            | Backfilled =>
              simp [accumulate_index_document, ht, hp, hc] at hm
              subst hm
              exact mem_keys_insertIndex _ _ _ _ hk
            | Enabled =>
              simp [accumulate_index_document, ht, hp, hc] at hm
              subst hm
              exact mem_keys_insertIndex _ _ _ _ hk
      · simp [accumulate_index_document, ht] at hm
        subst hm
        exact hk
  · intro h
    subst h
    simp [accumulate_index_document]
  · intro doc hdoc ht
    subst hdoc
    simp [accumulate_index_document, ht]
  · intro doc hdoc ht hp
    subst hdoc
    simp [accumulate_index_document, ht, hp]
  · intro doc meta hdoc ht hp hc
    subst hdoc
    simp [accumulate_index_document, ht, hp, hc]
  · intro doc meta flds hdoc ht hp hc
    subst hdoc
    simp [accumulate_index_document, ht, hp, hc]
  · intro doc meta flds st hdoc ht hp hc hne
    subst hdoc
    cases st with
    | Backfilling => exact absurd rfl hne
    | Backfilled => simp [accumulate_index_document, ht, hp, hc]
    | Enabled => simp [accumulate_index_document, ht, hp, hc]

/-- Witness for C6: a non-backfilling database index document on the index
metadata table is inserted into an empty map. -/
theorem accumulate_index_document_spec_witness :
    accumulate_index_document
        (some ⟨1, 7, some ⟨⟨2, 3⟩, IndexConfig.Database [0] DatabaseIndexState.Enabled⟩⟩)
        [] 1
      = Except.ok (insertIndex 7 (⟨2, 3⟩, [0]) []) :=
  (accumulate_index_document_spec
      (some ⟨1, 7, some ⟨⟨2, 3⟩, IndexConfig.Database [0] DatabaseIndexState.Enabled⟩⟩)
      [] 1).2.2.2.2.2.2
    ⟨1, 7, some ⟨⟨2, 3⟩, IndexConfig.Database [0] DatabaseIndexState.Enabled⟩⟩
    ⟨⟨2, 3⟩, IndexConfig.Database [0] DatabaseIndexState.Enabled⟩
    [0] DatabaseIndexState.Enabled rfl rfl rfl rfl (by decide)

/-- Every entry emitted for a single index carries that index's id. -/
theorem entriesForIndex_index_id {Doc : Type} (indexKey : Doc → IndexedFields → Key)
    (sha : Key → List Nat) (splitPre splitSuf : Key → List Nat)
    (prevRevTs ts : Timestamp) (prevRevDoc : Doc) (maybeDoc : Option Doc)
    (ix : IndexId × IndexInfo) (e : IndexEntry)
    (he : e ∈ entriesForIndex indexKey sha splitPre splitSuf prevRevTs ts prevRevDoc
        maybeDoc ix) :
    e.index_id = ix.1 := by
  unfold entriesForIndex at he
  split at he
  · rcases List.mem_cons.mp he with rfl | he
    · rfl
    · rcases List.mem_singleton.mp he with rfl
      rfl
  · rcases List.mem_singleton.mp he with rfl
    rfl

/-- Every entry emitted for a single index is either the `deleted = false`
entry at the previous revision's timestamp or the tombstone at `ts`. -/
theorem entriesForIndex_shape {Doc : Type} (indexKey : Doc → IndexedFields → Key)
    (sha : Key → List Nat) (splitPre splitSuf : Key → List Nat)
    (prevRevTs ts : Timestamp) (prevRevDoc : Doc) (maybeDoc : Option Doc)
    (ix : IndexId × IndexInfo) (e : IndexEntry)
    (he : e ∈ entriesForIndex indexKey sha splitPre splitSuf prevRevTs ts prevRevDoc
        maybeDoc ix) :
    (e.deleted = false ∧ e.ts = prevRevTs) ∨ (e.deleted = true ∧ e.ts = ts) := by
  unfold entriesForIndex at he
  split at he
  · rcases List.mem_cons.mp he with rfl | he
    · exact Or.inl ⟨rfl, rfl⟩
    · rcases List.mem_singleton.mp he with rfl
      exact Or.inr ⟨rfl, rfl⟩
  · rcases List.mem_singleton.mp he with rfl
    exact Or.inl ⟨rfl, rfl⟩

/-- When the new document exists and its index key equals the previous
revision's, only the `deleted = false` entry at `prevRevTs` is produced. -/
theorem entriesForIndex_same_key {Doc : Type} (indexKey : Doc → IndexedFields → Key)
    (sha : Key → List Nat) (splitPre splitSuf : Key → List Nat)
    (prevRevTs ts : Timestamp) (prevRevDoc doc : Doc)
    (ix : IndexId × IndexInfo)
    (hkey : indexKey prevRevDoc ix.2.2 = indexKey doc ix.2.2) :
    entriesForIndex indexKey sha splitPre splitSuf prevRevTs ts prevRevDoc (some doc) ix
      = [⟨ix.1, splitPre (indexKey prevRevDoc ix.2.2), splitSuf (indexKey prevRevDoc ix.2.2),
          sha (indexKey prevRevDoc ix.2.2), prevRevTs, false⟩] := by
  have hneeded : tombstoneNeeded indexKey (indexKey prevRevDoc ix.2.2) ix.2.2 (some doc)
      = false := by
    simp [tombstoneNeeded, hkey.symm]
  simp [entriesForIndex, hneeded]

/-- With `Nodup` keys, an association list determines its values. -/
theorem nodup_keys_unique {l : AllIndexes} (h : (l.map Prod.fst).Nodup) {k : IndexId}
    {v w : IndexInfo} (hv : (k, v) ∈ l) (hw : (k, w) ∈ l) : v = w := by
  induction l with
  | nil => cases hv
  | cons hd tl ih =>
    rw [List.map_cons, List.nodup_cons] at h
    rcases List.mem_cons.mp hv with h1 | h1 <;> rcases List.mem_cons.mp hw with h2 | h2
    · exact congrArg Prod.snd (h1.trans h2.symm)
    · exfalso
      apply h.1
      have : hd.1 = k := by rw [← h1]
      rw [this]
      exact List.mem_map.mpr ⟨(k, w), h2, rfl⟩
    · exfalso
      apply h.1
      have : hd.1 = k := by rw [← h2]
      rw [this]
      exact List.mem_map.mpr ⟨(k, v), h1, rfl⟩
    · exact ih h.2 h1 h2

/-- Claim C1: in the expired-index-entry stream, for a revision whose prior
revision shares the same index key as the live new document, no tombstone
(`deleted = true`) entry is emitted for that (revision, index) pair — every
entry for that index is the `deleted = false` entry at the previous
revision's timestamp, so the index entry at `ts` is never scheduled for
deletion. -/
theorem same_key_suppresses_tombstone {Doc : Type} (indexKey : Doc → IndexedFields → Key)
    (sha : Key → List Nat) (splitPre splitSuf : Key → List Nat)
    (allIndexes : AllIndexes) (hnd : (allIndexes.map Prod.fst).Nodup)
    (prevRevTs ts : Timestamp) (prevRevDoc doc : Doc) (id : DocId)
    (iid : IndexId) (nm : GenericIndexName) (flds : IndexedFields)
    (hmem : (iid, nm, flds) ∈ allIndexes)
    (hkey : indexKey prevRevDoc flds = indexKey doc flds) :
    ∀ e ∈ (expiredEntriesForRevision indexKey sha splitPre splitSuf allIndexes
        (some (prevRevTs, some prevRevDoc)) ts id (some doc)).1,
      e.index_id = iid → e.deleted = false ∧ e.ts = prevRevTs := by
  intro e he hid
  unfold expiredEntriesForRevision at he
  rw [List.mem_flatten] at he
  obtain ⟨l, hl, hel⟩ := he
  rw [List.mem_map] at hl
  obtain ⟨x, hx, rfl⟩ := hl
  obtain ⟨xid, xinfo⟩ := x
  have hxmem : (xid, xinfo) ∈ allIndexes := (List.mem_filter.mp hx).1
  have hxid : xid = iid := by
    have := entriesForIndex_index_id indexKey sha splitPre splitSuf prevRevTs ts
      prevRevDoc (some doc) (xid, xinfo) e hel
    rw [this] at hid
    exact hid
  subst hxid
  have hinfo : xinfo = (nm, flds) := nodup_keys_unique hnd hxmem hmem
  subst hinfo
  rw [entriesForIndex_same_key indexKey sha splitPre splitSuf prevRevTs ts prevRevDoc doc
    (xid, nm, flds) hkey] at hel
  rcases List.mem_singleton.mp hel with rfl
  exact ⟨rfl, rfl⟩

/-- Witness for C1: one index over the document's table, identical previous
and next keys; the emitted entry for that index is `deleted = false` at the
previous timestamp. -/
theorem same_key_suppresses_tombstone_witness :
    (⟨4, [5], [5], [5], 2, false⟩ : IndexEntry).deleted = false ∧
    (⟨4, [5], [5], [5], 2, false⟩ : IndexEntry).ts = 2 :=
  same_key_suppresses_tombstone (fun (d : Nat) (_ : IndexedFields) => [d])
    (fun k => k) (fun k => k) (fun k => k) [(4, ⟨0, 9⟩, [1])] (by decide)
    2 3 5 5 ⟨0, 8⟩ 4 ⟨0, 9⟩ [1] (by decide) rfl
    ⟨4, [5], [5], [5], 2, false⟩ (by decide) rfl

/-- Claim C7: a revision whose prior revision exists but is a tombstone
contributes no index entries, is reported as exactly one structured error,
and the remaining revisions of the chunk are processed as if it were
absent. -/
theorem tombstone_prev_rev_reported_and_skipped {Doc : Type}
    (indexKey : Doc → IndexedFields → Key) (sha : Key → List Nat)
    (splitPre splitSuf : Key → List Nat) (allIndexes : AllIndexes)
    (prevRevs : DocId → Timestamp → Option (Timestamp × Option Doc))
    (r : Revision Doc) (prevRevTs : Timestamp)
    (hprev : prevRevs r.id r.ts = some (prevRevTs, none))
    (before after : List (Revision Doc)) :
    expiredEntriesForRevision indexKey sha splitPre splitSuf allIndexes
        (prevRevs r.id r.ts) r.ts r.id r.doc = ([], 1) ∧
    (expired_index_entries indexKey sha splitPre splitSuf allIndexes prevRevs
        (before ++ r :: after)).1
      = (expired_index_entries indexKey sha splitPre splitSuf allIndexes prevRevs
          (before ++ after)).1 ∧
    (expired_index_entries indexKey sha splitPre splitSuf allIndexes prevRevs
        (before ++ r :: after)).2
      = (expired_index_entries indexKey sha splitPre splitSuf allIndexes prevRevs
          (before ++ after)).2 + 1 := by
  have h1 : expiredEntriesForRevision indexKey sha splitPre splitSuf allIndexes
      (prevRevs r.id r.ts) r.ts r.id r.doc = ([], 1) := by
    rw [hprev]
    rfl
  refine ⟨h1, ?_, ?_⟩
  · simp [expired_index_entries, h1]
  · simp [expired_index_entries, h1]
    omega

/-- Witness for C7: a two-revision chunk whose first revision's prior
revision is a tombstone. -/
theorem tombstone_prev_rev_reported_and_skipped_witness :
    expiredEntriesForRevision (fun (d : Nat) (_ : IndexedFields) => [d])
        (fun k => k) (fun k => k) (fun k => k) [(4, ⟨0, 9⟩, [1])]
        ((fun (_ : DocId) (_ : Timestamp) => some ((1 : Timestamp), (none : Option Nat)))
          (⟨0, 8⟩ : DocId) 3) 3 ⟨0, 8⟩ (some 5) = ([], 1) ∧
    (expired_index_entries (fun (d : Nat) (_ : IndexedFields) => [d])
        (fun k => k) (fun k => k) (fun k => k) [(4, ⟨0, 9⟩, [1])]
        (fun _ _ => some ((1 : Timestamp), (none : Option Nat)))
        ([] ++ (⟨3, ⟨0, 8⟩, some 5⟩ : Revision Nat) :: [⟨4, ⟨0, 8⟩, none⟩])).1
      = (expired_index_entries (fun (d : Nat) (_ : IndexedFields) => [d])
          (fun k => k) (fun k => k) (fun k => k) [(4, ⟨0, 9⟩, [1])]
          (fun _ _ => some ((1 : Timestamp), (none : Option Nat)))
          ([] ++ [⟨4, ⟨0, 8⟩, none⟩])).1 ∧
    (expired_index_entries (fun (d : Nat) (_ : IndexedFields) => [d])
        (fun k => k) (fun k => k) (fun k => k) [(4, ⟨0, 9⟩, [1])]
        (fun _ _ => some ((1 : Timestamp), (none : Option Nat)))
        ([] ++ (⟨3, ⟨0, 8⟩, some 5⟩ : Revision Nat) :: [⟨4, ⟨0, 8⟩, none⟩])).2
      = (expired_index_entries (fun (d : Nat) (_ : IndexedFields) => [d])
          (fun k => k) (fun k => k) (fun k => k) [(4, ⟨0, 9⟩, [1])]
          (fun _ _ => some ((1 : Timestamp), (none : Option Nat)))
          ([] ++ [⟨4, ⟨0, 8⟩, none⟩])).2 + 1 :=
  tombstone_prev_rev_reported_and_skipped (fun (d : Nat) (_ : IndexedFields) => [d])
    (fun k => k) (fun k => k) (fun k => k) [(4, ⟨0, 9⟩, [1])]
    (fun _ _ => some ((1 : Timestamp), (none : Option Nat)))
    ⟨3, ⟨0, 8⟩, some 5⟩ 1 rfl [] [⟨4, ⟨0, 8⟩, none⟩]

/-- Claim C10: every entry emitted by the expired-index-entry stream over
revisions in `[cursor, min_snapshot_ts)` has `ts` strictly below
`min_snapshot_ts`; tombstone entries carry the revision timestamp, which
also lies at or above `cursor`. -/
theorem expired_entries_below_boundary {Doc : Type}
    (indexKey : Doc → IndexedFields → Key) (sha : Key → List Nat)
    (splitPre splitSuf : Key → List Nat) (allIndexes : AllIndexes)
    (prevRevs : DocId → Timestamp → Option (Timestamp × Option Doc))
    (cursor minSnapshotTs : Timestamp) (revisions : List (Revision Doc))
    (hrange : ∀ r ∈ revisions, cursor ≤ r.ts ∧ r.ts < minSnapshotTs)
    (hprev : ∀ (id : DocId) (ts pts : Timestamp) (md : Option Doc),
      prevRevs id ts = some (pts, md) → pts < ts) :
    ∀ e ∈ (expired_index_entries indexKey sha splitPre splitSuf allIndexes prevRevs
        revisions).1,
      e.ts < minSnapshotTs ∧ (e.deleted = true → cursor ≤ e.ts) := by
  intro e he
  unfold expired_index_entries at he
  rw [List.mem_flatten] at he
  obtain ⟨l, hl, hel⟩ := he
  rw [List.map_map, List.mem_map] at hl
  obtain ⟨r, hr, rfl⟩ := hl
  obtain ⟨hcur, hlt⟩ := hrange r hr
  rcases hpr : prevRevs r.id r.ts with _ | ⟨pts, md⟩
  · rw [Function.comp_apply, hpr] at hel
    cases hel
  · rcases md with _ | pd
    · rw [Function.comp_apply, hpr] at hel
      cases hel
    · have hptslt : pts < r.ts := hprev r.id r.ts pts (some pd) hpr
      rw [Function.comp_apply, hpr] at hel
      unfold expiredEntriesForRevision at hel
      rw [List.mem_flatten] at hel
      obtain ⟨l', hl', hel'⟩ := hel
      rw [List.mem_map] at hl'
      obtain ⟨ix, _, rfl⟩ := hl'
      rcases entriesForIndex_shape indexKey sha splitPre splitSuf pts r.ts pd r.doc ix e
          hel' with ⟨hdel, hts⟩ | ⟨hdel, hts⟩
      · constructor
        · rw [hts]
          exact lt_trans hptslt hlt
        · intro hcontra
          rw [hdel] at hcontra
          cases hcontra
      · refine ⟨?_, ?_⟩
        · rw [hts]
          exact hlt
        · intro _
          rw [hts]
          exact hcur

/-- Witness for C10: a single revision at timestamp 3 in `[1, 8)` with a
prior revision at timestamp 2 and one matching index. -/
theorem expired_entries_below_boundary_witness :
    (⟨4, [5], [5], [5], 3, true⟩ : IndexEntry).ts < 8 ∧
    ((⟨4, [5], [5], [5], 3, true⟩ : IndexEntry).deleted = true →
      (1 : Timestamp) ≤ (⟨4, [5], [5], [5], 3, true⟩ : IndexEntry).ts) :=
  expired_entries_below_boundary (fun (d : Nat) (_ : IndexedFields) => [d])
    (fun k => k) (fun k => k) (fun k => k) [(4, ⟨0, 9⟩, [1])]
    (fun _ ts => if ts = 3 then some ((2 : Timestamp), some (5 : Nat)) else none)
    1 8 [⟨3, ⟨0, 8⟩, some 6⟩]
    (by intro r hr; rcases List.mem_singleton.mp hr with rfl; exact ⟨by decide, by decide⟩)
    (by
      intro id ts pts md h
      by_cases hts : ts = 3
      · subst hts
        simp at h
        rw [← h.1]
        decide
      · simp [hts] at h)
    ⟨4, [5], [5], [5], 3, true⟩ (by decide)

/-- `pushAt` preserves the number of shards. -/
theorem pushAt_length (parts : List (List IndexEntry)) (j : Nat) (e : IndexEntry) :
    (pushAt parts j e).length = parts.length := by
  induction parts generalizing j with
  | nil => rfl
  | cons s rest ih =>
    cases j with
    | zero => rfl
    | succ i => simp [pushAt, ih]

/-- `pushAt` appends to the selected shard and leaves the others alone. -/
theorem pushAt_getElem? (parts : List (List IndexEntry)) (j : Nat) (e : IndexEntry)
    (i : Nat) :
    (pushAt parts j e)[i]?
      = if i = j then parts[i]?.map (fun s => s ++ [e]) else parts[i]? := by
  induction parts generalizing i j with
  | nil =>
    simp only [pushAt]
    split <;> simp
  | cons s rest ih =>
    cases j with
    | zero =>
      cases i with
      | zero => simp [pushAt]
      | succ m => simp [pushAt]
    | succ k =>
      cases i with
      | zero => simp [pushAt]
      | succ m =>
        have hiff : (m + 1 = k + 1) = (m = k) := by simp
        simp [pushAt, ih, hiff]

/-- `pushAt` at an in-range position adds exactly the pushed entry to the
multiset of all entries. -/
theorem pushAt_flatten_perm (parts : List (List IndexEntry)) (j : Nat) (e : IndexEntry)
    (hj : j < parts.length) :
    (pushAt parts j e).flatten.Perm (e :: parts.flatten) := by
  induction parts generalizing j with
  | nil => exact absurd hj (Nat.not_lt_zero j)
  | cons s rest ih =>
    cases j with
    | zero =>
      simp only [pushAt, List.flatten_cons]
      rw [List.append_assoc, List.singleton_append]
      exact List.perm_middle
    | succ k =>
      simp only [pushAt, List.flatten_cons]
      have h1 := (ih k (by simpa using hj)).append_left s
      exact h1.trans List.perm_middle

/-- The shard-count invariant of the `partition_chunk` fold. -/
theorem partition_foldl_length (hashKey : List Nat → Nat) (par : Nat)
    (xs : List IndexEntry) :
    ∀ parts : List (List IndexEntry),
      (xs.foldl (fun parts entry => pushAt parts (hashKey entry.key_sha256 % par) entry)
          parts).length = parts.length := by
  induction xs with
  | nil => intro parts; rfl
  | cons x xs ih =>
    intro parts
    rw [List.foldl_cons, ih, pushAt_length]

/-- The multiset invariant of the `partition_chunk` fold. -/
theorem partition_foldl_flatten_perm (hashKey : List Nat → Nat) (par : Nat)
    (hpar : 0 < par) (xs : List IndexEntry) :
    ∀ parts : List (List IndexEntry), parts.length = par →
      ((xs.foldl (fun parts entry => pushAt parts (hashKey entry.key_sha256 % par) entry)
          parts).flatten).Perm (parts.flatten ++ xs) := by
  induction xs with
  | nil =>
    intro parts _
    simp
  | cons x xs ih =>
    intro parts hlen
    rw [List.foldl_cons]
    have hj : hashKey x.key_sha256 % par < parts.length := by
      rw [hlen]
      exact Nat.mod_lt _ hpar
    have h1 := ih (pushAt parts (hashKey x.key_sha256 % par) x)
      (by rw [pushAt_length]; exact hlen)
    have h2 := (pushAt_flatten_perm parts _ x hj).append_right xs
    refine h1.trans (h2.trans ?_)
    rw [List.cons_append]
    exact List.perm_middle.symm

/-- Pushing an entry onto the shard selected by its hash preserves the
shard-index invariant. -/
theorem pushAt_mem_preserve (hashKey : List Nat → Nat) (par : Nat)
    (parts : List (List IndexEntry)) (x : IndexEntry)
    (h : ∀ i s a, parts[i]? = some s → a ∈ s → hashKey a.key_sha256 % par = i) :
    ∀ i s a, (pushAt parts (hashKey x.key_sha256 % par) x)[i]? = some s → a ∈ s →
      hashKey a.key_sha256 % par = i := by
  intro i s a hs ha
  rw [pushAt_getElem?] at hs
  by_cases hij : i = hashKey x.key_sha256 % par
  · rw [if_pos hij] at hs
    rcases ho : parts[i]? with _ | s0
    · rw [ho] at hs
      cases hs
    · rw [ho] at hs
      have hs' : s0 ++ [x] = s := by simpa using hs
      subst hs'
      rcases List.mem_append.mp ha with ha' | ha'
      · exact h i s0 a ho ha'
      · rcases List.mem_singleton.mp ha' with rfl
        exact hij.symm
  · rw [if_neg hij] at hs
    exact h i s a hs ha

/-- The shard-index invariant of the `partition_chunk` fold. -/
theorem partition_foldl_mem (hashKey : List Nat → Nat) (par : Nat)
    (xs : List IndexEntry) :
    ∀ parts : List (List IndexEntry),
      (∀ i s a, parts[i]? = some s → a ∈ s → hashKey a.key_sha256 % par = i) →
      ∀ i s a,
        (xs.foldl (fun parts entry => pushAt parts (hashKey entry.key_sha256 % par) entry)
            parts)[i]? = some s → a ∈ s → hashKey a.key_sha256 % par = i := by
  induction xs with
  | nil => exact fun parts h => h
  | cons x xs ih =>
    intro parts h i s a hs ha
    rw [List.foldl_cons] at hs
    exact ih (pushAt parts (hashKey x.key_sha256 % par) x)
      (pushAt_mem_preserve hashKey par parts x h) i s a hs ha

/-- Shards of the initial all-empty partition are empty. -/
theorem replicate_nil_mem (par : Nat) :
    ∀ (i : Nat) (s : List IndexEntry) (a : IndexEntry),
      (List.replicate par ([] : List IndexEntry))[i]? = some s → a ∈ s → False := by
  intro i s a hs ha
  rw [List.getElem?_eq_some] at hs
  obtain ⟨hlt, hs⟩ := hs
  rw [List.getElem_replicate] at hs
  rw [← hs] at ha
  cases ha

theorem flatten_replicate_nil (n : Nat) :
    (List.replicate n ([] : List IndexEntry)).flatten = [] := by
  induction n with
  | zero => rfl
  | succ m ih => simp [List.replicate_succ, ih]

/-- Claim C9: `partition_chunk` returns exactly `RETENTION_DELETE_PARALLEL`
shards, every input entry lands in exactly one shard (the concatenation of
the shards is a permutation of the input), the shard holding an entry is
determined by `hash(key_sha256) mod N`, and hence two entries with equal
`key_sha256` always land in the same shard. -/
theorem partition_chunk_spec (hashKey : List Nat → Nat) (par : Nat) (hpar : 0 < par)
    (toPartition : List IndexEntry) :
    (partition_chunk hashKey par toPartition).length = par ∧
    toPartition.Perm (partition_chunk hashKey par toPartition).flatten ∧
    (∀ (i : Nat) (shard : List IndexEntry) (e : IndexEntry),
        (partition_chunk hashKey par toPartition)[i]? = some shard → e ∈ shard →
        hashKey e.key_sha256 % par = i) ∧
    (∀ (i j : Nat) (s t : List IndexEntry) (a b : IndexEntry),
        (partition_chunk hashKey par toPartition)[i]? = some s → a ∈ s →
        (partition_chunk hashKey par toPartition)[j]? = some t → b ∈ t →
        a.key_sha256 = b.key_sha256 → i = j) := by
  have hmem := partition_foldl_mem hashKey par toPartition (List.replicate par [])
    (fun i s a hs ha => (replicate_nil_mem par i s a hs ha).elim)
  refine ⟨?_, ?_, ?_, ?_⟩
  · unfold partition_chunk
    rw [partition_foldl_length, List.length_replicate]
  · have h := partition_foldl_flatten_perm hashKey par hpar toPartition
      (List.replicate par []) (List.length_replicate _ _)
    rw [flatten_replicate_nil] at h
    simpa using h.symm
  · exact fun i s e hs he => hmem i s e hs he
  · intro i j s t a b hs ha ht hb hk
    have h1 := hmem i s a hs ha
    have h2 := hmem j t b ht hb
    rw [← h1, ← h2, hk]

/-- Witness for C9, at a two-entry chunk with two shards. -/
theorem partition_chunk_spec_witness :
    (partition_chunk (fun k => k.sum) 2
        [⟨0, [], [], [3], 1, true⟩, ⟨1, [], [], [4], 2, false⟩]).length = 2 ∧
    ([⟨0, [], [], [3], 1, true⟩, ⟨1, [], [], [4], 2, false⟩] : List IndexEntry).Perm
      (partition_chunk (fun k => k.sum) 2
        [⟨0, [], [], [3], 1, true⟩, ⟨1, [], [], [4], 2, false⟩]).flatten ∧
    (∀ (i : Nat) (shard : List IndexEntry) (e : IndexEntry),
        (partition_chunk (fun k => k.sum) 2
            [⟨0, [], [], [3], 1, true⟩, ⟨1, [], [], [4], 2, false⟩])[i]? = some shard →
        e ∈ shard → (fun k => k.sum) e.key_sha256 % 2 = i) ∧
    (∀ (i j : Nat) (s t : List IndexEntry) (a b : IndexEntry),
        (partition_chunk (fun k => k.sum) 2
            [⟨0, [], [], [3], 1, true⟩, ⟨1, [], [], [4], 2, false⟩])[i]? = some s → a ∈ s →
        (partition_chunk (fun k => k.sum) 2
            [⟨0, [], [], [3], 1, true⟩, ⟨1, [], [], [4], 2, false⟩])[j]? = some t → b ∈ t →
        a.key_sha256 = b.key_sha256 → i = j) :=
  partition_chunk_spec (fun k => k.sum) 2 (by decide)
    [⟨0, [], [], [3], 1, true⟩, ⟨1, [], [], [4], 2, false⟩]

/-- The deletion loop either drains the whole group list and returns
`(min_snapshot_ts.pred(), total)` or stops at a group where the early-return
condition `new_cursor > cursor && total > batch` holds. -/
theorem deleteAux_drain_or_early (hashKey : List Nat → Nat) (par : Nat)
    (etd : List IndexEntry → List IndexEntry) (cursor : Timestamp) (batch : Nat)
    (minSnapshotTs : Timestamp) (hmin : minSnapshotTs ≠ 0) :
    ∀ (gs : List (List IndexEntry)) (nc : Timestamp) (total : Nat),
      deleteAux hashKey par etd cursor minSnapshotTs batch nc total gs
        = some (minSnapshotTs - 1, total + (gs.map List.length).sum) ∨
      ∃ nc' t', deleteAux hashKey par etd cursor minSnapshotTs batch nc total gs
          = some (nc', t') ∧ cursor < nc' ∧ batch < t' := by
  intro gs
  induction gs with
  | nil =>
    intro nc total
    left
    simp [deleteAux, tsPred, hmin]
  | cons g gs ih =>
    intro nc total
    by_cases hcond : cursor < stepGroup hashKey par etd nc g ∧ batch < total + g.length
    · right
      refine ⟨stepGroup hashKey par etd nc g, total + g.length, ?_, hcond.1, hcond.2⟩
      simp only [deleteAux]
      rw [if_pos hcond]
    · have hred : deleteAux hashKey par etd cursor minSnapshotTs batch nc total (g :: gs)
          = deleteAux hashKey par etd cursor minSnapshotTs batch
              (stepGroup hashKey par etd nc g) (total + g.length) gs := by
        simp only [deleteAux]
        rw [if_neg hcond]
      rcases ih (stepGroup hashKey par etd nc g) (total + g.length) with h | ⟨nc', t', h, h1, h2⟩
      · left
        rw [hred, h]
        have hsum : total + g.length + (gs.map List.length).sum
            = total + ((g :: gs).map List.length).sum := by
          simp [Nat.add_assoc]
        rw [hsum]
      · right
        exact ⟨nc', t', by rw [hred]; exact h, h1, h2⟩

/-- Claim C4 (amended): during a `delete()` pass, after processing a group,
if the group-level new cursor exceeds the input cursor and the total number
of expired entries processed so far is strictly greater than
`RETENTION_DELETE_BATCH`, `delete()` returns early with
`(new_cursor, total_expired_entries)`; otherwise, when the expired stream
drains, it returns `(min_snapshot_ts.pred(), total_expired_entries)`. -/
theorem delete_batch_early_return (hashKey : List Nat → Nat) (par : Nat)
    (etd : List IndexEntry → List IndexEntry) (minSnapshotTs cursor : Timestamp)
    (batch : Nat) (hmin : minSnapshotTs ≠ tsMin) :
    (∀ (nc : Timestamp) (total : Nat) (g : List IndexEntry)
        (gs : List (List IndexEntry)),
        cursor < stepGroup hashKey par etd nc g → batch < total + g.length →
        deleteAux hashKey par etd cursor minSnapshotTs batch nc total (g :: gs)
          = some (stepGroup hashKey par etd nc g, total + g.length)) ∧
    (∀ groups : List (List IndexEntry),
        delete true hashKey par etd minSnapshotTs cursor batch groups
          = some (minSnapshotTs - 1, (groups.map List.length).sum) ∨
        ∃ nc total, delete true hashKey par etd minSnapshotTs cursor batch groups
            = some (nc, total) ∧ cursor < nc ∧ batch < total) := by
  constructor
  · intro nc total g gs h1 h2
    simp only [deleteAux]
    rw [if_pos ⟨h1, h2⟩]
  · intro groups
    have hnot : ¬(true = false ∨ minSnapshotTs = tsMin) := by
      simp [hmin]
    have hdel : delete true hashKey par etd minSnapshotTs cursor batch groups
        = deleteAux hashKey par etd cursor minSnapshotTs batch cursor 0 groups := by
      unfold delete
      rw [if_neg hnot]
    rcases deleteAux_drain_or_early hashKey par etd cursor batch minSnapshotTs
        (by simpa [tsMin] using hmin) groups cursor 0 with h | ⟨nc, t, h, hh1, hh2⟩
    · left
      rw [hdel, h]
      simp
    · right
      exact ⟨nc, t, by rw [hdel]; exact h, hh1, hh2⟩

/-- Witness for C4's amended theorem at a concrete one-group input. -/
theorem delete_batch_early_return_witness :
    deleteAux (fun _ => 0) 1 id 0 5 1 0 1 [[⟨0, [], [], [], 3, true⟩]]
      = some (stepGroup (fun _ => 0) 1 id 0 [⟨0, [], [], [], 3, true⟩], 1 + 1) ∧
    (delete true (fun _ => 0) 1 id 5 0 1 [[⟨0, [], [], [], 3, true⟩]]
        = some (5 - 1, (([[⟨0, [], [], [], 3, true⟩]] : List (List IndexEntry)).map
            List.length).sum) ∨
      ∃ nc total, delete true (fun _ => 0) 1 id 5 0 1 [[⟨0, [], [], [], 3, true⟩]]
          = some (nc, total) ∧ 0 < nc ∧ 1 < total) :=
  ⟨(delete_batch_early_return (fun _ => 0) 1 id 5 0 1 (by decide)).1 0 1
      ([⟨0, [], [], [], 3, true⟩] : List IndexEntry) ([] : List (List IndexEntry))
      (by decide) (by decide),
   (delete_batch_early_return (fun _ => 0) 1 id 5 0 1 (by decide)).2
      [[⟨0, [], [], [], 3, true⟩]]⟩

/-- Counterexample to claim C4 as stated: with `RETENTION_DELETE_BATCH = 1`,
cursor `0` and a single group holding exactly one expired entry at
timestamp 2, the group-level new cursor is `1 > 0` and the running total
`1 ≥ 1` equals the batch size, so the claim predicts an early return with
`(1, 1)`; the code instead continues (its condition is
`total_expired_entries > RETENTION_DELETE_BATCH`, strict), drains the
stream, and returns `(min_snapshot_ts.pred(), total) = (4, 1)`. -/
theorem delete_batch_ge_counterexample :
    stepGroup (fun _ => 0) 1 id 0 [⟨0, [], [], [], 2, true⟩] = 1 ∧
    (0 : Timestamp) < 1 ∧ (1 : Nat) ≥ 1 ∧
    delete true (fun _ => 0) 1 id 5 0 1 [[⟨0, [], [], [], 2, true⟩]] = some (4, 1) ∧
    some ((4 : Timestamp), (1 : Nat)) ≠ some ((1 : Timestamp), (1 : Nat)) := by
  refine ⟨by decide, by decide, by decide, by decide, by decide⟩

end Retention
